import Mathlib

/-!
Shallow embedding of the Mafia game engine (backend of the repository):
the event-visibility predicate (websocket/manager.py), the game runner's
win condition, lynch resolution, night resolution and role assignment
(game/runner.py), the cheatsheet CRUD layer (db/crud.py) and the
reflection pipeline (game/reflection.py).  Python dicts keyed by strings
are embedded as association lists in insertion order, the database rows
touched by one player's game as a list of records, and the seeded
pseudo-random generator as an explicit stream of draws consumed by the
Fisher-Yates shuffle that `random.shuffle` performs.
-/

namespace Mafia

/-- Visibility enum from models/schemas.py. -/
inductive Visibility where
  | PUBLIC
  | MAFIA
  | PRIVATE
  | VIEWER
deriving DecidableEq, Repr

/-- Winner enum from models/schemas.py. -/
inductive Winner where
  | MAFIA
  | TOWN
deriving DecidableEq, Repr

/-- The fields of a GameEvent (models/schemas.py) consulted by the
delivery predicate: its visibility tag and optional actor id.  The
remaining fields (id, timestamp, series/game ids, type, target, payload)
are opaque payload for every property proved here. -/
structure GameEvent where
  visibility : Visibility
  actor_id : Option String
deriving DecidableEq, Repr

/-- The fields of a websocket Subscription (websocket/manager.py)
consulted by the delivery predicate. -/
structure Subscription where
  viewer_mode : Bool
  player_id : Option String
  player_role : Option String
deriving DecidableEq, Repr

/-- ConnectionManager._should_send_event (websocket/manager.py, lines
121-142), translated clause for clause. -/
def should_send_event (subscription : Subscription) (event : GameEvent) : Bool :=
  -- Viewers see everything
  if subscription.viewer_mode then true
  -- Public events go to everyone
  else if event.visibility = Visibility.PUBLIC then true
  -- Mafia events go to mafia players
  else if event.visibility = Visibility.MAFIA ∧ subscription.player_role = some "mafia" then true
  -- Private events go only to the actor
  else if event.visibility = Visibility.PRIVATE ∧ subscription.player_id = event.actor_id then true
  -- Viewer-only events are for viewers (handled above)
  else false

/-- Per-game player record: the in-memory GamePlayerDict cached by
GameRunner (name, role, is_alive, player_id) merged with the columns of
the GamePlayer row that crud.update_game_player writes
(eliminated_day, elimination_type). -/
structure GamePlayer where
  player_id : String
  name : String
  role : String
  is_alive : Bool
  eliminated_day : Option Nat
  elimination_type : Option String
deriving DecidableEq, Repr

/-- GameRunner._get_alive_players. -/
def get_alive_players (players : List GamePlayer) : List GamePlayer :=
  players.filter (fun p => p.is_alive)

/-- Count of alive players whose role is the string "mafia"
(`mafia_count` in GameRunner._check_win_condition). -/
def alive_mafia_count (players : List GamePlayer) : Nat :=
  ((get_alive_players players).filter (fun p => p.role = "mafia")).length

/-- `town_count` in GameRunner._check_win_condition: alive players that
are not mafia, computed exactly as the code does (len(alive) minus the
mafia count). -/
def alive_town_count (players : List GamePlayer) : Nat :=
  (get_alive_players players).length - alive_mafia_count players

/-- GameRunner._check_win_condition (game/runner.py, lines 188-198). -/
def check_win_condition (players : List GamePlayer) : Option Winner :=
  let mafia_count := alive_mafia_count players
  let town_count := alive_town_count players
  if mafia_count = 0 then some Winner.TOWN
  else if mafia_count ≥ town_count then some Winner.MAFIA
  else none

/-- Python str.lower, character by character (String.toLower's mapping,
written over the character list so that concrete instances evaluate). -/
def lower (s : String) : String :=
  String.mk (s.data.map Char.toLower)

/-- GameRunner._get_player_by_name: the first player whose lowercased
name equals the lowercased query. -/
def get_player_by_name (players : List GamePlayer) (name : String) : Option GamePlayer :=
  players.find? (fun p => decide (lower p.name = lower name))

/-- The state change applied to an eliminated player: the in-place
`target["is_alive"] = False` on the cached player dict together with
the columns written by crud.update_game_player (eliminated_day,
elimination_type). -/
def eliminate (p : GamePlayer) (day : Nat) (cause : String) : GamePlayer :=
  { p with is_alive := false, eliminated_day := some day, elimination_type := some cause }

/-- The player list after eliminating the player with the given id. -/
def mark_eliminated (players : List GamePlayer) (pid : String) (day : Nat) (cause : String) :
    List GamePlayer :=
  players.map (fun p => if p.player_id = pid then eliminate p day cause else p)

/-- The ballot values of a vote map (the values of the `votes` dict, in
insertion order). -/
def ballot_values (votes : List (String × String)) : List String :=
  votes.map Prod.snd

/-- `vote_counts[v]` in GameRunner._resolve_lynch: how many ballots name
the value v. -/
def vote_count (votes : List (String × String)) (v : String) : Nat :=
  (ballot_values votes).count v

/-- `max(vote_counts.values())`: the maximum tally over the distinct
ballot values (0 for an empty vote map; the source is only reached with
at least one ballot, where Python's max is defined). -/
def max_votes (votes : List (String × String)) : Nat :=
  (((ballot_values votes).dedup).map (vote_count votes)).foldl max 0

/-- `top_voted`: the distinct ballot values whose tally is maximal. -/
def top_voted (votes : List (String × String)) : List String :=
  ((ballot_values votes).dedup).filter (fun v => decide (vote_count votes v = max_votes votes))

/-- GameRunner._resolve_lynch (game/runner.py, lines 431-470): returns
the updated player list and the lynched player, if any. -/
def resolve_lynch (players : List GamePlayer) (votes : List (String × String)) (day : Nat) :
    List GamePlayer × Option GamePlayer :=
  match top_voted votes with
  | [v] =>
    if v ≠ "no_lynch" then
      match get_player_by_name players v with
      | some target =>
        (mark_eliminated players target.player_id day "lynched",
          some (eliminate target day "lynched"))
      | none => (players, none)
    else (players, none)
  | _ => (players, none)

/-- The night-resolution section of GameRunner._run_night_phase
(game/runner.py, lines 513-539): given the mafia's chosen target name
(none when there is no alive mafia or no valid target) and the doctor's
protected target name, returns the updated player list and the killed
player, if any. -/
def resolve_night (players : List GamePlayer) (mafia_target doctor_target : Option String)
    (day : Nat) : List GamePlayer × Option GamePlayer :=
  match mafia_target with
  | none => (players, none)
  | some t =>
    if doctor_target = some t then (players, none)
    else
      match get_player_by_name players t with
      | some target =>
        if target.is_alive then
          (mark_eliminated players target.player_id day "killed",
            some (eliminate target day "killed"))
        else (players, none)
      | none => (players, none)

/-- v is the unique ballot value of maximal tally: it occurs among the
ballots and every other ballot value has a strictly smaller tally. -/
def is_unique_top (votes : List (String × String)) (v : String) : Prop :=
  v ∈ ballot_values votes ∧
    ∀ w ∈ ballot_values votes, w ≠ v → vote_count votes w < vote_count votes v

instance (votes : List (String × String)) (v : String) :
    Decidable (is_unique_top votes v) := by
  unfold is_unique_top; infer_instance

/-- One row of the cheatsheets table (db/models.py), restricted to one
player's chain: version number, items payload (opaque here) and the
created_after_game marker. -/
structure CheatsheetRow (α : Type) where
  version : Nat
  items : List α
  created_after_game : Option Nat
deriving DecidableEq, Repr

/-- One accumulation step of the version-ordered scan. -/
def latest_step {α : Type} (acc : Option (CheatsheetRow α)) (r : CheatsheetRow α) :
    Option (CheatsheetRow α) :=
  match acc with
  | none => some r
  | some a => if a.version < r.version then some r else some a

/-- ORDER BY version DESC LIMIT 1 over one player's rows: a row of
maximal version (the first such row, versions being unique per player
in the store). -/
def latest_by_version {α : Type} (rows : List (CheatsheetRow α)) : Option (CheatsheetRow α) :=
  rows.foldl latest_step none

/-- crud.get_latest_cheatsheet (db/crud.py, lines 269-277). -/
def get_latest_cheatsheet {α : Type} (store : List (CheatsheetRow α)) :
    Option (CheatsheetRow α) :=
  latest_by_version store

/-- crud.create_cheatsheet_version (db/crud.py, lines 280-300): appends
a new row whose version is one more than the current latest (0 when
there is none) and whose marker is the given game number. -/
def create_cheatsheet_version {α : Type} (store : List (CheatsheetRow α)) (items : List α)
    (game_number : Nat) : List (CheatsheetRow α) :=
  let new_version :=
    match get_latest_cheatsheet store with
    | some current => current.version + 1
    | none => 0
  store ++ [⟨new_version, items, some game_number⟩]

/-- The WHERE clause of crud.get_cheatsheet_at_game: the marker is
unset or strictly below the queried game number. -/
def in_effect_at {α : Type} (game_number : Nat) (r : CheatsheetRow α) : Bool :=
  match r.created_after_game with
  | none => true
  | some g => decide (g < game_number)

/-- crud.get_cheatsheet_at_game (db/crud.py, lines 313-337). -/
def get_cheatsheet_at_game {α : Type} (store : List (CheatsheetRow α)) (game_number : Nat) :
    Option (CheatsheetRow α) :=
  latest_by_version (store.filter (in_effect_at game_number))

/-- ReflectionPipeline.run_for_player (game/reflection.py, lines
169-274), abstracted over the two oracle stages: `reflector` is the
outcome of _run_reflector (error = LLMError, payload opaque) and
`curator` the outcome of _run_curator on the reflector's output (its
final cheatsheet items).  Returns the player's updated version chain
and the cheatsheet returned to the caller (none when reflection was
skipped after a reflector failure). -/
def run_for_player {α β : Type} (store : List (CheatsheetRow α)) (game_number : Nat)
    (reflector : Except Unit β) (curator : β → Except Unit (List α)) :
    List (CheatsheetRow α) × Option (List α) :=
  let current_items :=
    match get_latest_cheatsheet store with
    | some c => c.items
    | none => []
  match reflector with
  | Except.error _ => (store, none)
  | Except.ok r =>
    -- Keep current cheatsheet items on curator failure
    let final_items :=
      match curator r with
      | Except.ok items => items
      | Except.error _ => current_items
    -- Persist new version (unconditionally on this path)
    (create_cheatsheet_version store final_items game_number, some final_items)

/-- The role-count table ROLE_DISTRIBUTION (game/runner.py, lines
50-54), seen through the membership test and lookup the code performs:
an association list in the dict's insertion order. -/
def ROLE_DISTRIBUTION (num_players : Nat) : Option (List (String × Nat)) :=
  if num_players = 5 then
    some [("mafia", 1), ("doctor", 1), ("deputy", 1), ("townsperson", 2)]
  else if num_players = 6 then
    some [("mafia", 2), ("doctor", 1), ("deputy", 1), ("townsperson", 2)]
  else if num_players = 7 then
    some [("mafia", 2), ("doctor", 1), ("deputy", 1), ("townsperson", 3)]
  else none

/-- `distribution.get(role, 0)`. -/
def dist_get (d : List (String × Nat)) (role : String) : Nat :=
  match d.find? (fun rc => decide (rc.1 = role)) with
  | some rc => rc.2
  | none => 0

/-- `distribution[role] -= 1`: in-place dict update, key order kept. -/
def dist_dec (d : List (String × Nat)) (role : String) : List (String × Nat) :=
  d.map (fun rc => if rc.1 = role then (rc.1, rc.2 - 1) else rc)

/-- The fixed-role validation loop of assign_roles (game/runner.py,
lines 721-724): each fixed role is checked against the remaining quota
and subtracted, failing with the ValueError the code raises when the
quota is exhausted. -/
def subtract_fixed (d : List (String × Nat)) :
    List (String × String) → Except String (List (String × Nat))
  | [] => Except.ok d
  | (_, role) :: rest =>
    if dist_get d role ≤ 0 then
      Except.error "Cannot assign fixed role: exceeds distribution limit"
    else subtract_fixed (dist_dec d role) rest

/-- `remaining_roles` before shuffling (lines 727-729): each role of
the subtracted table repeated count times, in table order. -/
def build_remaining (d : List (String × Nat)) : List String :=
  d.flatMap (fun rc => List.replicate rc.2 rc.1)

/-- The seeded generator random.Random(seed), embedded as the stream of
values its successive internal draws produce; one seed determines one
stream, so equal streams model equal seeds. -/
def next_draw : List Nat → Nat × List Nat
  | [] => (0, [])
  | d :: ds => (d, ds)

/-- The parallel assignment `x[i], x[j] = x[j], x[i]`. -/
def list_swap {α : Type} (x : List α) (i j : Nat) : List α :=
  match x.get? i, x.get? j with
  | some xi, some xj => (x.set i xj).set j xi
  | _, _ => x

/-- random.shuffle's Fisher-Yates loop from position i downwards:
`for i in reversed(range(1, len(x))): j = randbelow(i+1); swap`. -/
def shuffle_from {α : Type} : List α → Nat → List Nat → List α × List Nat
  | x, 0, rng => (x, rng)
  | x, i + 1, rng =>
    let p := next_draw rng
    shuffle_from (list_swap x (i + 1) (p.1 % (i + 2))) i p.2

/-- random.shuffle over the draw stream. -/
def shuffle {α : Type} (x : List α) (rng : List Nat) : List α × List Nat :=
  shuffle_from x (x.length - 1) rng

/-- `player_id in fixed_roles` and `fixed_roles[player_id]`. -/
def fixed_lookup (fixed_roles : List (String × String)) (pid : String) : Option String :=
  (fixed_roles.find? (fun pr => decide (pr.1 = pid))).map Prod.snd

/-- The assignment loop of assign_roles (lines 738-743): players in
their original input order; a fixed player takes their fixed role, any
other pops the LAST element of the shuffled remaining_roles list
(`remaining_roles.pop()`); popping an empty list is Python's
IndexError. -/
def assign_loop (fixed_roles : List (String × String)) :
    List String → List String → Except String (List (String × String))
  | [], _ => Except.ok []
  | pid :: rest, rem =>
    match fixed_lookup fixed_roles pid with
    | some role =>
      match assign_loop fixed_roles rest rem with
      | Except.ok tail => Except.ok ((pid, role) :: tail)
      | Except.error e => Except.error e
    | none =>
      match rem.getLast? with
      | some role =>
        match assign_loop fixed_roles rest rem.dropLast with
        | Except.ok tail => Except.ok ((pid, role) :: tail)
        | Except.error e => Except.error e
      | none => Except.error "IndexError: pop from empty list"

/-- assign_roles (game/runner.py, lines 704-744).  The result pairs
each player id, in input order, with the role persisted for it by
create_game_player. -/
def assign_roles (player_ids : List String) (fixed_roles : List (String × String))
    (rng : List Nat) : Except String (List (String × String)) :=
  match ROLE_DISTRIBUTION player_ids.length with
  | none => Except.error "Unsupported player count"
  | some distribution =>
    match subtract_fixed distribution fixed_roles with
    | Except.error e => Except.error e
    | Except.ok remaining_dist =>
      let shuffled := shuffle (build_remaining remaining_dist) rng
      -- the code also shuffles the list of players needing random
      -- roles with the same generator, but never reads that shuffled
      -- list afterwards: the loop below walks player_ids as given
      let players_needing_roles :=
        player_ids.filter (fun pid => (fixed_lookup fixed_roles pid).isNone)
      let _unused := shuffle players_needing_roles shuffled.2
      assign_loop fixed_roles player_ids shuffled.1

end Mafia

namespace Mafia

lemma le_foldl_max (l : List Nat) (a : Nat) : a ≤ l.foldl max a := by
  induction l generalizing a with
  | nil => exact Nat.le_refl a
  | cons b t ih => exact Nat.le_trans (Nat.le_max_left a b) (ih (max a b))

lemma mem_le_foldl_max {x : Nat} {l : List Nat} (a : Nat) (hx : x ∈ l) : x ≤ l.foldl max a := by
  induction l generalizing a with
  | nil => cases hx
  | cons b t ih =>
    rcases List.mem_cons.mp hx with h | h
    · subst h
      exact Nat.le_trans (Nat.le_max_right a x) (le_foldl_max t (max a x))
    · exact ih (max a b) h

lemma foldl_max_eq_or_mem (l : List Nat) (a : Nat) : l.foldl max a = a ∨ l.foldl max a ∈ l := by
  induction l generalizing a with
  | nil => exact Or.inl rfl
  | cons b t ih =>
    rcases ih (max a b) with h | h
    · rcases max_choice a b with hab | hab
      · exact Or.inl (by rw [List.foldl_cons, h, hab])
      · refine Or.inr ?_
        rw [List.foldl_cons, h, hab]
        exact List.mem_cons_self b t
    · refine Or.inr ?_
      rw [List.foldl_cons]
      exact List.mem_cons_of_mem b h

/-- The maximal tally is attained by some ballot value, whenever there
is at least one ballot. -/
lemma exists_max_ballot (votes : List (String × String)) (hne : ballot_values votes ≠ []) :
    ∃ v ∈ ballot_values votes, vote_count votes v = max_votes votes := by
  unfold max_votes
  obtain ⟨v0, hv0⟩ := List.exists_mem_of_ne_nil _ hne
  have hv0d : v0 ∈ (ballot_values votes).dedup := List.mem_dedup.mpr hv0
  have hc0 : 0 < vote_count votes v0 := List.count_pos_iff.mpr hv0
  have hmem : vote_count votes v0 ∈ ((ballot_values votes).dedup).map (vote_count votes) :=
    List.mem_map_of_mem _ hv0d
  rcases foldl_max_eq_or_mem (((ballot_values votes).dedup).map (vote_count votes)) 0 with h | h
  · exfalso
    have hle := mem_le_foldl_max 0 hmem
    rw [h] at hle
    omega
  · obtain ⟨v, hv, hveq⟩ := List.mem_map.mp h
    exact ⟨v, List.mem_dedup.mp hv, hveq⟩

lemma vote_count_le_max (votes : List (String × String)) {w : String}
    (hw : w ∈ ballot_values votes) : vote_count votes w ≤ max_votes votes :=
  mem_le_foldl_max 0 (List.mem_map_of_mem _ (List.mem_dedup.mpr hw))

lemma filter_eq_singleton_of {α : Type} (p : α → Bool) (v : α) :
    ∀ (l : List α), l.Nodup → v ∈ l → p v = true → (∀ w ∈ l, p w = true → w = v) →
      l.filter p = [v]
  | [], _, hv, _, _ => absurd hv (List.not_mem_nil v)
  | b :: t, hnd, hv, hpv, huniq => by
    rcases List.mem_cons.mp hv with h | h
    · subst h
      have ht : t.filter p = [] := by
        rw [List.filter_eq_nil_iff]
        intro w hw hpw
        have : w = v := huniq w (List.mem_cons_of_mem v hw) hpw
        subst this
        exact (List.nodup_cons.mp hnd).1 hw
      simp [List.filter_cons, hpv, ht]
    · have hbv : b ≠ v := by
        intro hb
        subst hb
        exact (List.nodup_cons.mp hnd).1 h
      have hpb : p b = false := by
        cases hpbv : p b with
        | false => rfl
        | true => exact absurd (huniq b (List.mem_cons_self b t) hpbv) hbv
      have := filter_eq_singleton_of p v t (List.nodup_cons.mp hnd).2 h hpv
        (fun w hw hpw => huniq w (List.mem_cons_of_mem b hw) hpw)
      simp [List.filter_cons, hpb, this]

/-- `top_voted votes = [v]` exactly when v is the unique ballot value of
maximal tally. -/
lemma top_voted_singleton_iff (votes : List (String × String)) (v : String) :
    top_voted votes = [v] ↔ is_unique_top votes v := by
  constructor
  · intro h
    have hv : v ∈ top_voted votes := by rw [h]; exact List.mem_singleton.mpr rfl
    have hv' := List.mem_filter.mp hv
    have hvmem : v ∈ ballot_values votes := List.mem_dedup.mp hv'.1
    have hvmax : vote_count votes v = max_votes votes := by
      have := hv'.2
      simpa using this
    refine ⟨hvmem, fun w hw hwv => ?_⟩
    have hle := vote_count_le_max votes hw
    rcases Nat.lt_or_ge (vote_count votes w) (max_votes votes) with hlt | hge
    · omega
    · exfalso
      have hweq : vote_count votes w = max_votes votes := Nat.le_antisymm hle hge
      have hwtop : w ∈ top_voted votes :=
        List.mem_filter.mpr ⟨List.mem_dedup.mpr hw, by simp [hweq]⟩
      rw [h] at hwtop
      exact hwv (List.mem_singleton.mp hwtop)
  · rintro ⟨hvmem, hstrict⟩
    have hne : ballot_values votes ≠ [] := List.ne_nil_of_mem hvmem
    have hvmax : vote_count votes v = max_votes votes := by
      obtain ⟨w, hw, hweq⟩ := exists_max_ballot votes hne
      by_cases hwD : w = v
      · subst hwD; exact hweq
      · have := hstrict w hw hwD
        have hle := vote_count_le_max votes hvmem
        omega
    apply filter_eq_singleton_of _ v _ (List.nodup_dedup _) (List.mem_dedup.mpr hvmem)
      (by simp [hvmax])
    intro w hw hpw
    by_contra hwv
    have hwmem : w ∈ ballot_values votes := List.mem_dedup.mp hw
    have := hstrict w hwmem hwv
    have hweq : vote_count votes w = max_votes votes := by simpa using hpw
    omega

/-- C1: the delivery predicate returns true exactly when the subscriber
is a viewer, or the event is Public, or the event is Mafia-visible and
the subscriber's role is mafia, or the event is Private and the
subscriber's player id equals the event's actor id; in every other case
(in particular a Viewer-visibility event offered to a non-viewer) it
returns false. -/
theorem should_send_event_spec (s : Subscription) (e : GameEvent) :
    should_send_event s e = true ↔
      (s.viewer_mode = true ∨ e.visibility = Visibility.PUBLIC ∨
        (e.visibility = Visibility.MAFIA ∧ s.player_role = some "mafia") ∨
        (e.visibility = Visibility.PRIVATE ∧ s.player_id = e.actor_id)) := by
  unfold should_send_event
  by_cases hv : s.viewer_mode = true
  · simp [hv]
  · cases e.visibility <;> simp_all

/-- C2: the win check is total and exclusive.  Its value is always one
of {Town wins, Mafia wins, game continues}; it is Town exactly when no
mafia is alive, Mafia exactly when the alive mafia are at least the
alive non-mafia and at least one mafia is alive, and the game continues
exactly in the remaining case. -/
theorem check_win_condition_spec (players : List GamePlayer) :
    (check_win_condition players = some Winner.TOWN ∨
      check_win_condition players = some Winner.MAFIA ∨
      check_win_condition players = none) ∧
    (check_win_condition players = some Winner.TOWN ↔ alive_mafia_count players = 0) ∧
    (check_win_condition players = some Winner.MAFIA ↔
      (alive_mafia_count players ≥ alive_town_count players ∧ 0 < alive_mafia_count players)) ∧
    (check_win_condition players = none ↔
      (0 < alive_mafia_count players ∧ alive_mafia_count players < alive_town_count players)) := by
  unfold check_win_condition
  by_cases h0 : alive_mafia_count players = 0
  · simp [h0]
  · by_cases hge : alive_mafia_count players ≥ alive_town_count players
    · have hpos := Nat.pos_of_ne_zero h0
      simp [h0, hge, hpos]
    · have hpos := Nat.pos_of_ne_zero h0
      have hlt := Nat.lt_of_not_le hge
      simp [h0, hge, hpos, hlt]

/-- C3: given at least one ballot, each ballot naming "no_lynch" or an
existing player, a player is lynched iff the maximal tally is attained
by exactly one ballot value and that value is not "no_lynch"; the
lynched player is the one so named, marked dead with cause "lynched"
and the current day, and in every other case (any multi-way tie for the
top tally, including one involving "no_lynch", or "no_lynch" alone on
top) the player list is unchanged and no one is lynched. -/
theorem resolve_lynch_spec (players : List GamePlayer) (votes : List (String × String)) (day : Nat)
    (_hne : votes ≠ [])
    (hvalid : ∀ pr ∈ votes,
      pr.2 = "no_lynch" ∨ (get_player_by_name players pr.2).isSome = true) :
    ((resolve_lynch players votes day).2.isSome = true ↔
      ∃ v, is_unique_top votes v ∧ v ≠ "no_lynch")
    ∧ (∀ p, (resolve_lynch players votes day).2 = some p →
        ∃ v target, is_unique_top votes v ∧ v ≠ "no_lynch" ∧
          get_player_by_name players v = some target ∧
          p = eliminate target day "lynched" ∧
          (resolve_lynch players votes day).1 =
            mark_eliminated players target.player_id day "lynched")
    ∧ ((resolve_lynch players votes day).2 = none →
        (resolve_lynch players votes day).1 = players) := by
  have hlookup : ∀ v, v ∈ ballot_values votes → v ≠ "no_lynch" →
      (get_player_by_name players v).isSome = true := by
    intro v hv hvn
    obtain ⟨pr, hpr, hpr2⟩ := List.mem_map.mp hv
    rcases hvalid pr hpr with h | h
    · exact absurd (hpr2 ▸ h) hvn
    · exact hpr2 ▸ h
  rcases htv : top_voted votes with _ | ⟨v, _ | ⟨w, t⟩⟩
  · -- no distinct top value at all: the catch-all branch, no lynch
    have hnotop : ¬ ∃ v, is_unique_top votes v ∧ v ≠ "no_lynch" := by
      rintro ⟨v, hu, _⟩
      have := (top_voted_singleton_iff votes v).mpr hu
      rw [htv] at this
      exact absurd this (by simp)
    simp only [resolve_lynch, htv]
    exact ⟨by simpa using hnotop, by simp, by simp⟩
  · -- a unique top value v
    by_cases hvn : v = "no_lynch"
    · subst hvn
      have hnotop : ¬ ∃ w, is_unique_top votes w ∧ w ≠ "no_lynch" := by
        rintro ⟨w, hu, hwn⟩
        have := (top_voted_singleton_iff votes w).mpr hu
        rw [htv] at this
        exact hwn (by simpa using this.symm)
      simp only [resolve_lynch, htv]
      exact ⟨by simpa using hnotop, by simp, by simp⟩
    · have hu : is_unique_top votes v := (top_voted_singleton_iff votes v).mp htv
      have hsome := hlookup v hu.1 hvn
      obtain ⟨target, htarget⟩ := Option.isSome_iff_exists.mp hsome
      have hres : resolve_lynch players votes day =
          (mark_eliminated players target.player_id day "lynched",
            some (eliminate target day "lynched")) := by
        simp [resolve_lynch, htv, hvn, htarget]
      rw [hres]
      refine ⟨by simp; exact ⟨v, hu, hvn⟩, ?_, by simp⟩
      intro p hp
      simp at hp
      exact ⟨v, target, hu, hvn, htarget, hp.symm, rfl⟩
  · -- two or more tied top values: no lynch
    have hnotop : ¬ ∃ u, is_unique_top votes u ∧ u ≠ "no_lynch" := by
      rintro ⟨u, hu, _⟩
      have := (top_voted_singleton_iff votes u).mpr hu
      rw [htv] at this
      simp at this
    simp only [resolve_lynch, htv]
    exact ⟨by simpa using hnotop, by simp, by simp⟩

/-- Five concrete players used by the witnesses: one mafia, one doctor,
one deputy, two townspersons, all alive. -/
def players5 : List GamePlayer :=
  [⟨"1", "a", "mafia", true, none, none⟩,
   ⟨"2", "b", "doctor", true, none, none⟩,
   ⟨"3", "c", "deputy", true, none, none⟩,
   ⟨"4", "d", "townsperson", true, none, none⟩,
   ⟨"5", "e", "townsperson", true, none, none⟩]

/-- Five ballots with tallies {a:3, b:2}. -/
def votesA5 : List (String × String) :=
  [("1", "a"), ("2", "a"), ("3", "a"), ("4", "b"), ("5", "b")]

/-- Five ballots with tallies {a:2, b:2, no_lynch:1}: a two-way tie. -/
def votesTie5 : List (String × String) :=
  [("1", "a"), ("2", "a"), ("3", "b"), ("4", "b"), ("5", "no_lynch")]

/-- Witness for C3: tallies {a:3, b:2} lynch player a, and tallies
{a:2, b:2, no_lynch:1} lynch no one. -/
theorem resolve_lynch_spec_witness :
    (votesA5 ≠ [] ∧ (resolve_lynch players5 votesA5 1).2.isSome = true)
    ∧ (resolve_lynch players5 votesTie5 1).2 = none := by
  constructor
  · refine ⟨by decide, ?_⟩
    exact (resolve_lynch_spec players5 votesA5 1 (by decide) (by decide)).1.mpr
      ⟨"a", by decide, by decide⟩
  · decide

/-- Players whose id differs from the eliminated one are untouched. -/
lemma mem_mark_eliminated_of_ne {players : List GamePlayer} {q : GamePlayer}
    (hq : q ∈ players) (pid : String) (day : Nat) (cause : String)
    (hne : q.player_id ≠ pid) : q ∈ mark_eliminated players pid day cause := by
  unfold mark_eliminated
  have : (fun p => if p.player_id = pid then eliminate p day cause else p) q = q := by
    simp [hne]
  exact this ▸ List.mem_map_of_mem _ hq

/-- C4: night resolution.  If the mafia chose no target, or the mafia's
target equals the doctor's protected target, no player dies and the
player list is unchanged.  Otherwise, if the mafia's target resolves to
a player who is still alive, exactly that player is marked dead with
cause "killed" and the current day (every other player passes through
unchanged); a target that is already dead dies no further death. -/
theorem resolve_night_spec (players : List GamePlayer) (mt dt : Option String) (day : Nat) :
    (mt = none → resolve_night players mt dt day = (players, none))
    ∧ (mt = dt → resolve_night players mt dt day = (players, none))
    ∧ (∀ t target, mt = some t → dt ≠ some t →
        get_player_by_name players t = some target → target.is_alive = true →
        resolve_night players mt dt day =
          (mark_eliminated players target.player_id day "killed",
            some (eliminate target day "killed"))
        ∧ (∀ q ∈ players, q.player_id ≠ target.player_id →
            q ∈ (resolve_night players mt dt day).1)
        ∧ (eliminate target day "killed").is_alive = false
        ∧ (eliminate target day "killed").eliminated_day = some day
        ∧ (eliminate target day "killed").elimination_type = some "killed")
    ∧ (∀ t target, mt = some t → dt ≠ some t →
        get_player_by_name players t = some target → target.is_alive = false →
        resolve_night players mt dt day = (players, none)) := by
  refine ⟨?_, ?_, ?_, ?_⟩
  · intro h
    simp [resolve_night, h]
  · intro h
    cases mt with
    | none => simp [resolve_night]
    | some t => simp [resolve_night, ← h]
  · intro t target hmt hdt hfind halive
    subst hmt
    have hne : ¬ dt = some t := hdt
    have hres : resolve_night players (some t) dt day =
        (mark_eliminated players target.player_id day "killed",
          some (eliminate target day "killed")) := by
      simp [resolve_night, hne, hfind, halive]
    refine ⟨hres, ?_, rfl, rfl, rfl⟩
    intro q hq hqne
    rw [hres]
    exact mem_mark_eliminated_of_ne hq _ day "killed" hqne
  · intro t target hmt hdt hfind hdead
    subst hmt
    have hne : ¬ dt = some t := hdt
    simp [resolve_night, hne, hfind, hdead]

/-- Witness for C4: with mafia target "d" and doctor target "b", player
d (id "4") is killed; with mafia target equal to doctor target "b", no
one dies. -/
theorem resolve_night_spec_witness :
    ((some "d" : Option String) ≠ none ∧
      (resolve_night players5 (some "d") (some "b") 1).2.isSome = true ∧
      (resolve_night players5 (some "b") (some "b") 1).2 = none) := by
  refine ⟨by decide, ?_, ?_⟩
  · have h := (resolve_night_spec players5 (some "d") (some "b") 1).2.2.1 "d"
      ⟨"4", "d", "townsperson", true, none, none⟩ rfl (by decide) (by decide) rfl
    rw [h.1]
    decide
  · rw [(resolve_night_spec players5 (some "b") (some "b") 1).2.1 rfl]

/-- The elimination update never revives: every entry of the updated
list that is alive was alive in the original list. -/
lemma forall₂_alive_mark (ps : List GamePlayer) (pid : String) (day : Nat) (cause : String) :
    List.Forall₂ (fun q p => q.is_alive = true → p.is_alive = true)
      (mark_eliminated ps pid day cause) ps := by
  unfold mark_eliminated
  induction ps with
  | nil => exact List.Forall₂.nil
  | cons p t ih =>
    rw [List.map_cons]
    refine List.Forall₂.cons ?_ ih
    by_cases h : p.player_id = pid
    · simp [h, eliminate]
    · simp [h]

lemma forall₂_alive_refl (ps : List GamePlayer) :
    List.Forall₂ (fun q p => q.is_alive = true → p.is_alive = true) ps ps :=
  List.forall₂_same.mpr (fun _ _ h => h)

/-- The updated player list produced by lynch resolution is either
untouched or a single elimination. -/
lemma resolve_lynch_fst_cases (players : List GamePlayer) (votes : List (String × String))
    (day : Nat) :
    (resolve_lynch players votes day).1 = players ∨
      ∃ pid, (resolve_lynch players votes day).1 = mark_eliminated players pid day "lynched" := by
  unfold resolve_lynch
  rcases htv : top_voted votes with _ | ⟨v, _ | ⟨w, t⟩⟩
  · simp
  · by_cases hvn : v = "no_lynch"
    · simp [hvn]
    · rcases hg : get_player_by_name players v with _ | target
      · simp [hvn, hg]
      · exact Or.inr ⟨target.player_id, by simp [hvn, hg]⟩
  · simp

/-- The updated player list produced by night resolution is either
untouched or a single elimination. -/
lemma resolve_night_fst_cases (players : List GamePlayer) (mt dt : Option String) (day : Nat) :
    (resolve_night players mt dt day).1 = players ∨
      ∃ pid, (resolve_night players mt dt day).1 = mark_eliminated players pid day "killed" := by
  unfold resolve_night
  rcases mt with _ | t
  · simp
  · by_cases hdt : dt = some t
    · simp [hdt]
    · rcases hg : get_player_by_name players t with _ | target
      · simp [hdt, hg]
      · by_cases halive : target.is_alive
        · exact Or.inr ⟨target.player_id, by simp [hdt, hg, halive]⟩
        · simp [hdt, hg, halive]

/-- C10: alive-flag monotonicity.  Both mutation sites of one game run
(lynch resolution and night-kill resolution) only ever clear the alive
flag: entrywise, any player alive after the phase was already alive
before it, so the alive set shrinks monotonically. -/
theorem alive_flag_monotone (players : List GamePlayer) (votes : List (String × String))
    (mt dt : Option String) (day : Nat) :
    List.Forall₂ (fun q p => q.is_alive = true → p.is_alive = true)
      ((resolve_lynch players votes day).1) players
    ∧ List.Forall₂ (fun q p => q.is_alive = true → p.is_alive = true)
      ((resolve_night players mt dt day).1) players := by
  constructor
  · rcases resolve_lynch_fst_cases players votes day with h | ⟨pid, h⟩
    · rw [h]; exact forall₂_alive_refl players
    · rw [h]; exact forall₂_alive_mark players pid day "lynched"
  · rcases resolve_night_fst_cases players mt dt day with h | ⟨pid, h⟩
    · rw [h]; exact forall₂_alive_refl players
    · rw [h]; exact forall₂_alive_mark players pid day "killed"

/-- Witness for C10 at the concrete five-player state. -/
theorem alive_flag_monotone_witness :
    List.Forall₂ (fun q p => q.is_alive = true → p.is_alive = true)
      ((resolve_lynch players5 votesA5 1).1) players5
    ∧ List.Forall₂ (fun q p => q.is_alive = true → p.is_alive = true)
      ((resolve_night players5 (some "d") (some "b") 1).1) players5 :=
  alive_flag_monotone players5 votesA5 (some "d") (some "b") 1

/-- The version-ordered scan, started at some row, returns a row that
is the start or a member, with maximal version among both. -/
lemma foldl_latest_spec {α : Type} :
    ∀ (rows : List (CheatsheetRow α)) (a : CheatsheetRow α),
      ∃ r, rows.foldl latest_step (some a) = some r
        ∧ (r = a ∨ r ∈ rows) ∧ a.version ≤ r.version ∧ ∀ s ∈ rows, s.version ≤ r.version
  | [], a => ⟨a, rfl, Or.inl rfl, Nat.le_refl _, by simp⟩
  | b :: t, a => by
    by_cases h : a.version < b.version
    · obtain ⟨r, hfold, hmem, hle, hall⟩ := foldl_latest_spec t b
      refine ⟨r, ?_, ?_, ?_, ?_⟩
      · rw [List.foldl_cons]
        have : latest_step (some a) b = some b := by simp [latest_step, h]
        rw [this]
        exact hfold
      · rcases hmem with h1 | h1
        · exact Or.inr (h1 ▸ List.mem_cons_self b t)
        · exact Or.inr (List.mem_cons_of_mem b h1)
      · omega
      · intro s hs
        rcases List.mem_cons.mp hs with h1 | h1
        · exact h1 ▸ hle
        · exact hall s h1
    · obtain ⟨r, hfold, hmem, hle, hall⟩ := foldl_latest_spec t a
      refine ⟨r, ?_, ?_, hle, ?_⟩
      · rw [List.foldl_cons]
        have : latest_step (some a) b = some a := by simp [latest_step, h]
        rw [this]
        exact hfold
      · rcases hmem with h1 | h1
        · exact Or.inl h1
        · exact Or.inr (List.mem_cons_of_mem b h1)
      · intro s hs
        rcases List.mem_cons.mp hs with h1 | h1
        · subst h1
          omega
        · exact hall s h1

/-- latest_by_version returns none exactly on the empty chain, and
otherwise a member row of maximal version. -/
lemma latest_by_version_spec {α : Type} (rows : List (CheatsheetRow α)) :
    (rows = [] ∧ latest_by_version rows = none) ∨
      ∃ r, latest_by_version rows = some r ∧ r ∈ rows ∧ ∀ s ∈ rows, s.version ≤ r.version := by
  cases rows with
  | nil => exact Or.inl ⟨rfl, rfl⟩
  | cons b t =>
    right
    obtain ⟨r, hfold, hmem, hle, hall⟩ := foldl_latest_spec t b
    refine ⟨r, ?_, ?_, ?_⟩
    · rw [latest_by_version, List.foldl_cons]
      exact hfold
    · rcases hmem with h1 | h1
      · exact h1 ▸ List.mem_cons_self b t
      · exact List.mem_cons_of_mem b h1
    · intro s hs
      rcases List.mem_cons.mp hs with h1 | h1
      · subst h1
        exact hle
      · exact hall s h1

/-- The Bool filter of the as-of query agrees with its specification:
marker unset or strictly below the queried game number. -/
lemma in_effect_at_iff {α : Type} (N : Nat) (r : CheatsheetRow α) :
    in_effect_at N r = true ↔
      (r.created_after_game = none ∨ ∃ g, r.created_after_game = some g ∧ g < N) := by
  unfold in_effect_at
  cases h : r.created_after_game <;> simp [h]

/-- C8: the as-of query for game number N returns a stored row whose
creation marker is unset or strictly less than N and whose version is
maximal among all such rows; it returns a row whenever any row
qualifies. -/
theorem get_cheatsheet_at_game_spec {α : Type} (store : List (CheatsheetRow α)) (N : Nat) :
    (∀ r, get_cheatsheet_at_game store N = some r →
        r ∈ store
        ∧ (r.created_after_game = none ∨ ∃ g, r.created_after_game = some g ∧ g < N)
        ∧ ∀ s ∈ store,
            (s.created_after_game = none ∨ ∃ g, s.created_after_game = some g ∧ g < N) →
            s.version ≤ r.version)
    ∧ (∀ s ∈ store,
        (s.created_after_game = none ∨ ∃ g, s.created_after_game = some g ∧ g < N) →
        (get_cheatsheet_at_game store N).isSome = true) := by
  constructor
  · intro r hr
    rw [get_cheatsheet_at_game] at hr
    rcases latest_by_version_spec (store.filter (in_effect_at N)) with ⟨_, hnone⟩ | ⟨r', hr', hmem, hall⟩
    · rw [hnone] at hr
      cases hr
    · rw [hr'] at hr
      cases hr
      have hmem' := List.mem_filter.mp hmem
      refine ⟨hmem'.1, (in_effect_at_iff N _).mp hmem'.2, ?_⟩
      intro s hs hsin
      exact hall s (List.mem_filter.mpr ⟨hs, (in_effect_at_iff N s).mpr hsin⟩)
  · intro s hs hsin
    rw [get_cheatsheet_at_game]
    rcases latest_by_version_spec (store.filter (in_effect_at N)) with ⟨hnil, _⟩ | ⟨r', hr', _, _⟩
    · exfalso
      have : s ∈ store.filter (in_effect_at N) :=
        List.mem_filter.mpr ⟨hs, (in_effect_at_iff N s).mpr hsin⟩
      rw [hnil] at this
      cases this
    · rw [hr']
      rfl

/-- Three cheatsheet versions with creation markers [null, 2, 5]. -/
def store3 : List (CheatsheetRow String) :=
  [⟨0, ["v0"], none⟩, ⟨1, ["v1"], some 2⟩, ⟨2, ["v2"], some 5⟩]

/-- Witness for C8: querying game 3 over markers [null, 2, 5] returns
the version marked 2, querying game 1 returns the initial version. -/
theorem get_cheatsheet_at_game_spec_witness :
    get_cheatsheet_at_game store3 3 = some ⟨1, ["v1"], some 2⟩
    ∧ get_cheatsheet_at_game store3 1 = some ⟨0, ["v0"], none⟩
    ∧ (⟨1, ["v1"], some 2⟩ : CheatsheetRow String) ∈ store3 := by
  refine ⟨by decide, by decide, ?_⟩
  exact ((get_cheatsheet_at_game_spec store3 3).1 ⟨1, ["v1"], some 2⟩ (by decide)).1

/-- A one-version chain: the initial cheatsheet. -/
def store0 : List (CheatsheetRow String) :=
  [⟨0, ["opening tip"], none⟩]

/-- Counterexample to C5 as stated: a Curator failure after a
successful Reflector still creates a new cheatsheet version — the
chain grows from one row to two. -/
theorem run_for_player_curator_failure_creates_version :
    (run_for_player store0 1 (Except.ok ()) (fun _ : Unit => Except.error ())).1 =
      store0 ++ [⟨1, ["opening tip"], some 1⟩]
    ∧ (run_for_player store0 1 (Except.ok ()) (fun _ : Unit => Except.error ())).1 ≠ store0 := by
  exact ⟨by decide, by decide⟩

/-- C5 amended: if the Curator stage fails after a successful Reflector
stage, the proposed deltas are discarded and the cheatsheet CONTENTS
are left unchanged, but a new version row is still persisted: it
carries the same items as the current latest version, version number
one higher, and the created-after-game marker of this run. -/
theorem run_for_player_curator_failure {α β : Type} (store : List (CheatsheetRow α))
    (N : Nat) (r : β) (curator : β → Except Unit (List α)) (c : CheatsheetRow α)
    (hcur : get_latest_cheatsheet store = some c)
    (hfail : curator r = Except.error ()) :
    run_for_player store N (Except.ok r) curator =
      (store ++ [⟨c.version + 1, c.items, some N⟩], some c.items) := by
  unfold run_for_player create_cheatsheet_version
  simp [hcur, hfail]

/-- Witness for the amended C5 at the concrete one-row chain. -/
theorem run_for_player_curator_failure_witness :
    run_for_player store0 1 (Except.ok ()) (fun _ : Unit => Except.error ()) =
      (store0 ++ [⟨1, ["opening tip"], some 1⟩], some ["opening tip"]) :=
  run_for_player_curator_failure store0 1 () (fun _ : Unit => Except.error ())
    ⟨0, ["opening tip"], none⟩ (by decide) rfl

end Mafia

namespace Mafia

/-- Setting a position trades the old value for the new one, seen
through counts. -/
lemma count_set_add {α : Type} [DecidableEq α] :
    ∀ (x : List α) (i : Nat) (xi a b : α), x.get? i = some xi →
      (x.set i a).count b + (if xi = b then 1 else 0) =
        x.count b + (if a = b then 1 else 0)
  | [], i, xi, a, b, h => by cases h
  | c :: t, 0, xi, a, b, h => by
    simp only [List.get?_cons_zero, Option.some_inj] at h
    subst h
    by_cases h1 : c = b <;> by_cases h2 : a = b <;>
      simp [List.count_cons, h1, h2] <;> omega
  | c :: t, i + 1, xi, a, b, h => by
    simp only [List.get?_cons_succ] at h
    have ih := count_set_add t i xi a b h
    by_cases h1 : c = b <;> simp [List.count_cons, h1] <;> omega

/-- Writing back the value already stored changes nothing. -/
lemma set_get_self {α : Type} :
    ∀ (x : List α) (i : Nat) (xi : α), x.get? i = some xi → x.set i xi = x
  | [], _, _, h => by cases h
  | c :: t, 0, xi, h => by
    simp only [List.get?_cons_zero, Option.some_inj] at h
    subst h
    rfl
  | c :: t, i + 1, xi, h => by
    simp only [List.get?_cons_succ] at h
    simp [List.set_cons_succ, set_get_self t i xi h]

lemma list_swap_count {α : Type} [DecidableEq α] (x : List α) (i j : Nat) (b : α) :
    (list_swap x i j).count b = x.count b := by
  unfold list_swap
  rcases h1 : x.get? i with _ | xi
  · simp
  · rcases h2 : x.get? j with _ | xj
    · simp
    · simp only []
      by_cases hij : i = j
      · subst hij
        have hxx : xi = xj := by rw [h1] at h2; exact Option.some_inj.mp h2
        subst hxx
        rw [List.set_set, set_get_self x i xi h1]
      · have hyj : (x.set i xj).get? j = some xj := by
          rw [List.get?_set_ne _ _ hij]
          exact h2
        have eq1 := count_set_add x i xi xj b h1
        have eq2 := count_set_add (x.set i xj) j xj xi b hyj
        by_cases hxi : xi = b <;> by_cases hxj : xj = b <;>
          simp [hxi, hxj] at eq1 eq2 ⊢ <;> omega

lemma list_swap_perm {α : Type} [DecidableEq α] (x : List α) (i j : Nat) :
    (list_swap x i j).Perm x := by
  rw [List.perm_iff_count]
  intro b
  exact list_swap_count x i j b

lemma shuffle_from_perm {α : Type} [DecidableEq α] :
    ∀ (i : Nat) (x : List α) (rng : List Nat), ((shuffle_from x i rng).1).Perm x
  | 0, x, rng => List.Perm.refl x
  | i + 1, x, rng => by
    show ((shuffle_from (list_swap x (i + 1) ((next_draw rng).1 % (i + 2))) i
      (next_draw rng).2).1).Perm x
    exact (shuffle_from_perm i _ _).trans (list_swap_perm x (i + 1) _)

/-- random.shuffle permutes its input: the shuffled list has exactly the
same multiset of elements. -/
lemma shuffle_perm {α : Type} [DecidableEq α] (x : List α) (rng : List Nat) :
    ((shuffle x rng).1).Perm x :=
  shuffle_from_perm (x.length - 1) x rng

end Mafia

namespace Mafia

lemma dist_get_cons (rc : String × Nat) (t : List (String × Nat)) (role : String) :
    dist_get (rc :: t) role = if rc.1 = role then rc.2 else dist_get t role := by
  unfold dist_get
  by_cases h : rc.1 = role
  · rw [List.find?_cons_of_pos _ (by simpa using h)]
    simp [h]
  · rw [List.find?_cons_of_neg _ (by simpa using h)]
    simp [h]

lemma dist_dec_cons (rc : String × Nat) (t : List (String × Nat)) (s : String) :
    dist_dec (rc :: t) s = (if rc.1 = s then (rc.1, rc.2 - 1) else rc) :: dist_dec t s := rfl

lemma dist_dec_keys (d : List (String × Nat)) (s : String) :
    (dist_dec d s).map Prod.fst = d.map Prod.fst := by
  induction d with
  | nil => rfl
  | cons rc t ih =>
    rw [dist_dec_cons, List.map_cons, List.map_cons, ih]
    by_cases h : rc.1 = s <;> simp [h]

lemma dist_dec_absent (t : List (String × Nat)) (s : String) (h : s ∉ t.map Prod.fst) :
    dist_dec t s = t := by
  induction t with
  | nil => rfl
  | cons rc r ih =>
    rw [List.map_cons, List.mem_cons] at h
    push_neg at h
    rw [dist_dec_cons, if_neg (fun he => h.1 he.symm), ih h.2]

lemma dist_get_dec (d : List (String × Nat)) (s role : String) :
    dist_get (dist_dec d s) role =
      if s = role then dist_get d role - 1 else dist_get d role := by
  induction d with
  | nil =>
    by_cases h : s = role <;> simp [dist_get, dist_dec, h]
  | cons rc t ih =>
    rw [dist_dec_cons]
    by_cases h2 : rc.1 = s
    · rw [if_pos h2, dist_get_cons, dist_get_cons rc t role]
      by_cases h1 : rc.1 = role
      · have hsr : s = role := h2 ▸ h1
        simp [h1, hsr]
      · have hsr : (s = role) = (rc.1 = role) := by rw [h2]
        simp only [h1, if_neg h1, ih]
        rw [← h2]
        simp [h1]
    · rw [if_neg h2, dist_get_cons, dist_get_cons rc t role]
      by_cases h1 : rc.1 = role
      · have hsr : ¬ s = role := fun he => h2 (by rw [he, ← h1])
        simp [h1, hsr]
      · simp [h1, ih]

lemma subtract_fixed_ok_count :
    ∀ (fixed : List (String × String)) (d d' : List (String × Nat)),
      subtract_fixed d fixed = Except.ok d' →
      ∀ role, (fixed.map Prod.snd).count role ≤ dist_get d role
  | [], d, d', h, role => by simp
  | (p, s) :: rest, d, d', h, role => by
    unfold subtract_fixed at h
    by_cases hq : dist_get d s ≤ 0
    · rw [if_pos hq] at h
      cases h
    · rw [if_neg hq] at h
      have ih := subtract_fixed_ok_count rest (dist_dec d s) d' h role
      rw [dist_get_dec] at ih
      by_cases hsr : s = role
      · subst hsr
        simp only [List.map_cons, List.count_cons, if_pos rfl] at ih ⊢
        simp at ih ⊢
        omega
      · have hrs : role ≠ s := fun he => hsr he.symm
        simp only [List.map_cons, List.count_cons] at ih ⊢
        simp [hrs, hsr] at ih ⊢
        omega

lemma build_remaining_cons (rc : String × Nat) (t : List (String × Nat)) :
    build_remaining (rc :: t) = List.replicate rc.2 rc.1 ++ build_remaining t := rfl

lemma build_remaining_dec (d : List (String × Nat)) (s : String)
    (hnd : (d.map Prod.fst).Nodup) (hpos : 1 ≤ dist_get d s) :
    (build_remaining d : Multiset String) = s ::ₘ (build_remaining (dist_dec d s)) := by
  induction d with
  | nil => simp [dist_get] at hpos
  | cons rc t ih =>
    rw [List.map_cons, List.nodup_cons] at hnd
    by_cases h : rc.1 = s
    · have hts : s ∉ t.map Prod.fst := h ▸ hnd.1
      have hdec : dist_dec (rc :: t) s = (rc.1, rc.2 - 1) :: t := by
        rw [dist_dec_cons, if_pos h, dist_dec_absent t s hts]
      have hc : 1 ≤ rc.2 := by
        rw [dist_get_cons, if_pos h] at hpos
        exact hpos
      rw [hdec, build_remaining_cons, build_remaining_cons]
      have hrep : List.replicate rc.2 rc.1 = rc.1 :: List.replicate (rc.2 - 1) rc.1 := by
        conv =>
          lhs
          rw [show rc.2 = (rc.2 - 1) + 1 by omega]
        rw [List.replicate_succ]
      rw [hrep, ← h]
      simp [Multiset.cons_coe]
    · have hpos' : 1 ≤ dist_get t s := by
        rw [dist_get_cons, if_neg h] at hpos
        exact hpos
      have ihh := ih hnd.2 hpos'
      have hdec : dist_dec (rc :: t) s = rc :: dist_dec t s := by
        rw [dist_dec_cons, if_neg h]
      rw [hdec, build_remaining_cons, build_remaining_cons,
        ← Multiset.coe_add, ← Multiset.coe_add, ihh, Multiset.add_cons]

lemma subtract_fixed_multiset :
    ∀ (fixed : List (String × String)) (d d' : List (String × Nat)),
      (d.map Prod.fst).Nodup → subtract_fixed d fixed = Except.ok d' →
      (build_remaining d : Multiset String) =
        (fixed.map Prod.snd : List String) + (build_remaining d' : Multiset String)
  | [], d, d', hnd, h => by
    cases h
    simp
  | (p, s) :: rest, d, d', hnd, h => by
    unfold subtract_fixed at h
    by_cases hq : dist_get d s ≤ 0
    · rw [if_pos hq] at h
      cases h
    · rw [if_neg hq] at h
      have hnd' : ((dist_dec d s).map Prod.fst).Nodup := by
        rw [dist_dec_keys]
        exact hnd
      have ih := subtract_fixed_multiset rest (dist_dec d s) d' hnd' h
      have hb := build_remaining_dec d s hnd (by omega)
      rw [hb, ih, List.map_cons, ← Multiset.cons_coe, Multiset.cons_add]

end Mafia

namespace Mafia

lemma fixed_lookup_cons (pr : String × String) (rest : List (String × String)) (pid : String) :
    fixed_lookup (pr :: rest) pid =
      if pr.1 = pid then some pr.2 else fixed_lookup rest pid := by
  unfold fixed_lookup
  by_cases h : pr.1 = pid
  · rw [List.find?_cons_of_pos _ (by simpa using h), if_pos h]
    rfl
  · rw [List.find?_cons_of_neg _ (by simpa using h), if_neg h]

lemma fixed_lookup_isSome_iff (fixed : List (String × String)) (pid : String) :
    (fixed_lookup fixed pid).isSome = true ↔ pid ∈ fixed.map Prod.fst := by
  unfold fixed_lookup
  constructor
  · intro h
    rcases ho : fixed.find? (fun pr => decide (pr.1 = pid)) with _ | pr
    · rw [ho] at h
      simp at h
    · have hpr : pr.1 = pid := by simpa using List.find?_some ho
      exact List.mem_map.mpr ⟨pr, List.mem_of_find?_eq_some ho, hpr⟩
  · intro h
    obtain ⟨pr, hpr, he⟩ := List.mem_map.mp h
    have hs : (fixed.find? (fun pr => decide (pr.1 = pid))).isSome = true :=
      List.find?_isSome.mpr ⟨pr, hpr, by simpa using he⟩
    rcases ho : fixed.find? (fun pr => decide (pr.1 = pid)) with _ | q
    · rw [ho] at hs
      simp at hs
    · rw [ho]
      rfl

lemma fixed_lookup_of_mem :
    ∀ (fixed : List (String × String)), (fixed.map Prod.fst).Nodup →
      ∀ k v, (k, v) ∈ fixed → fixed_lookup fixed k = some v
  | [], _, k, v, hm => absurd hm (List.not_mem_nil _)
  | pr :: rest, hnd, k, v, hm => by
    rw [List.map_cons, List.nodup_cons] at hnd
    rw [fixed_lookup_cons]
    rcases List.mem_cons.mp hm with h | h
    · rw [← h]
      simp
    · have hk : k ∈ rest.map Prod.fst := List.mem_map.mpr ⟨(k, v), h, rfl⟩
      have hne : pr.1 ≠ k := fun he => hnd.1 (he ▸ hk)
      rw [if_neg hne]
      exact fixed_lookup_of_mem rest hnd.2 k v h

/-- Splitting a nonempty list at its last element, as multisets. -/
lemma coe_eq_getLast_cons_dropLast (rem : List String) (hne : rem ≠ []) :
    (rem : Multiset String) = rem.getLast hne ::ₘ (rem.dropLast : Multiset String) := by
  conv_lhs => rw [← List.dropLast_append_getLast hne]
  rw [← Multiset.coe_add, add_comm, Multiset.coe_singleton, Multiset.singleton_add]

/-- The assignment loop succeeds whenever the shuffled pool is exactly
as large as the set of non-fixed players, preserves the player order,
hands every fixed player its fixed role, and uses up exactly the whole
pool for the others. -/
lemma assign_loop_spec (fixed : List (String × String)) :
    ∀ (ps : List String) (rem : List String),
      (ps.filter (fun pid => (fixed_lookup fixed pid).isNone)).length = rem.length →
      ∃ out, assign_loop fixed ps rem = Except.ok out
        ∧ out.map Prod.fst = ps
        ∧ (out.map Prod.snd : Multiset String) =
            (ps.filterMap (fixed_lookup fixed) : List String) + (rem : Multiset String)
        ∧ (∀ pid ∈ ps, ∀ role, fixed_lookup fixed pid = some role → (pid, role) ∈ out)
  | [], rem, hlen => by
    simp only [List.filter_nil, List.length_nil] at hlen
    have hrem : rem = [] := List.eq_nil_of_length_eq_zero hlen.symm
    subst hrem
    exact ⟨[], rfl, rfl, by simp, by simp⟩
  | pid :: rest, rem, hlen => by
    rcases hf : fixed_lookup fixed pid with _ | role
    · rw [List.filter_cons] at hlen
      simp only [hf, Option.isNone_none, if_true, List.length_cons] at hlen
      have hne : rem ≠ [] := by
        intro h
        subst h
        simp at hlen
      have hlast : rem.getLast? = some (rem.getLast hne) := List.getLast?_eq_getLast rem hne
      have hlen' :
          (rest.filter (fun q => (fixed_lookup fixed q).isNone)).length =
            rem.dropLast.length := by
        rw [List.length_dropLast]
        omega
      obtain ⟨out, hout, hfst, hsnd, hfix⟩ := assign_loop_spec fixed rest rem.dropLast hlen'
      refine ⟨(pid, rem.getLast hne) :: out, ?_, ?_, ?_, ?_⟩
      · simp only [assign_loop, hf, hlast, hout]
      · simp [hfst]
      · rw [List.map_cons, ← Multiset.cons_coe, hsnd,
          List.filterMap_cons, hf, coe_eq_getLast_cons_dropLast rem hne, Multiset.add_cons]
      · intro q hq r hr
        rcases List.mem_cons.mp hq with h | h
        · subst h
          rw [hf] at hr
          cases hr
        · exact List.mem_cons_of_mem _ (hfix q h r hr)
    · rw [List.filter_cons] at hlen
      simp only [hf, Option.isNone_some, if_false] at hlen
      obtain ⟨out, hout, hfst, hsnd, hfix⟩ := assign_loop_spec fixed rest rem hlen
      refine ⟨(pid, role) :: out, ?_, ?_, ?_, ?_⟩
      · simp only [assign_loop, hf, hout]
      · simp [hfst]
      · rw [List.map_cons, ← Multiset.cons_coe, hsnd, List.filterMap_cons, hf]
        rw [← Multiset.cons_coe, Multiset.cons_add]
      · intro q hq r hr
        rcases List.mem_cons.mp hq with h | h
        · subst h
          rw [hf] at hr
          cases hr
          exact List.mem_cons_self _ _
        · exact List.mem_cons_of_mem _ (hfix q h r hr)

end Mafia

namespace Mafia

/-- The role a fixed player receives (total, with an unused default for
non-fixed players). -/
def fixed_value (fixed : List (String × String)) (pid : String) : String :=
  (fixed_lookup fixed pid).getD ""

lemma filterMap_eq_map_filter (fixed : List (String × String)) :
    ∀ ps : List String,
      ps.filterMap (fixed_lookup fixed) =
        (ps.filter (fun pid => (fixed_lookup fixed pid).isSome)).map (fixed_value fixed)
  | [] => rfl
  | pid :: rest => by
    rcases hf : fixed_lookup fixed pid with _ | role
    · simp only [List.filterMap_cons, List.filter_cons, hf, Option.isSome_none]
      simp [filterMap_eq_map_filter fixed rest]
    · simp only [List.filterMap_cons, List.filter_cons, hf, Option.isSome_some]
      simp only [if_true]
      rw [List.map_cons, filterMap_eq_map_filter fixed rest]
      have hv : fixed_value fixed pid = role := by
        unfold fixed_value
        rw [hf]
        rfl
      rw [hv]

lemma filter_isSome_perm_keys (ps : List String) (fixed : List (String × String))
    (hps : ps.Nodup) (hkeys : (fixed.map Prod.fst).Nodup)
    (hsub : ∀ pr ∈ fixed, pr.1 ∈ ps) :
    (ps.filter (fun pid => (fixed_lookup fixed pid).isSome)).Perm (fixed.map Prod.fst) := by
  apply (List.perm_ext_iff_of_nodup (List.Nodup.filter _ hps) hkeys).mpr
  intro a
  rw [List.mem_filter]
  constructor
  · rintro ⟨_, hsome⟩
    exact (fixed_lookup_isSome_iff fixed a).mp hsome
  · intro ha
    obtain ⟨pr, hpr, hpr1⟩ := List.mem_map.mp ha
    exact ⟨hpr1 ▸ hsub pr hpr, (fixed_lookup_isSome_iff fixed a).mpr ha⟩

lemma map_fixed_value_keys :
    ∀ (fixed : List (String × String)), (fixed.map Prod.fst).Nodup →
      (fixed.map Prod.fst).map (fixed_value fixed) = fixed.map Prod.snd
  | [], _ => rfl
  | pr :: rest, hnd => by
    rw [List.map_cons, List.nodup_cons] at hnd
    rw [List.map_cons, List.map_cons, List.map_cons]
    have hhead : fixed_value (pr :: rest) pr.1 = pr.2 := by
      unfold fixed_value
      rw [fixed_lookup_cons, if_pos rfl]
      rfl
    have htail : (rest.map Prod.fst).map (fixed_value (pr :: rest)) =
        (rest.map Prod.fst).map (fixed_value rest) := by
      apply List.map_congr_left
      intro k hk
      have hne : pr.1 ≠ k := fun he => hnd.1 (he ▸ hk)
      unfold fixed_value
      rw [fixed_lookup_cons, if_neg hne]
    rw [hhead, htail, map_fixed_value_keys rest hnd.2]

lemma filter_none_some_length (fixed : List (String × String)) :
    ∀ ps : List String,
      (ps.filter (fun pid => (fixed_lookup fixed pid).isNone)).length
        + (ps.filter (fun pid => (fixed_lookup fixed pid).isSome)).length = ps.length
  | [] => rfl
  | pid :: rest => by
    have ih := filter_none_some_length fixed rest
    rcases hf : fixed_lookup fixed pid with _ | role <;>
      simp [List.filter_cons, hf] <;> omega

/-- The table for a supported player count holds exactly that many
roles, and its keys are distinct. -/
lemma ROLE_DISTRIBUTION_spec (n : Nat) (d : List (String × Nat))
    (h : ROLE_DISTRIBUTION n = some d) :
    (build_remaining d).length = n ∧ (d.map Prod.fst).Nodup := by
  unfold ROLE_DISTRIBUTION at h
  by_cases h5 : n = 5
  · rw [if_pos h5] at h
    cases h
    subst h5
    exact ⟨by decide, by decide⟩
  · rw [if_neg h5] at h
    by_cases h6 : n = 6
    · rw [if_pos h6] at h
      cases h
      subst h6
      exact ⟨by decide, by decide⟩
    · rw [if_neg h6] at h
      by_cases h7 : n = 7
      · rw [if_pos h7] at h
        cases h
        subst h7
        exact ⟨by decide, by decide⟩
      · rw [if_neg h7] at h
        cases h

end Mafia

namespace Mafia

/-- C6: for a supported player count (the table exists for it) and a
valid fixed-role map (one entry per player, players of the game, quota
respected so the subtraction succeeds), role assignment succeeds,
assigns each player exactly one role in input order, gives each fixed
player its fixed role (fixed players having left the random pool), and
the multiset of all assigned roles equals the full distribution table
for that player count. -/
theorem assign_roles_distribution (player_ids : List String)
    (fixed_roles : List (String × String)) (rng : List Nat)
    (d d' : List (String × Nat))
    (hnodup : player_ids.Nodup)
    (hkeys : (fixed_roles.map Prod.fst).Nodup)
    (hsub : ∀ pr ∈ fixed_roles, pr.1 ∈ player_ids)
    (hdist : ROLE_DISTRIBUTION player_ids.length = some d)
    (hok : subtract_fixed d fixed_roles = Except.ok d') :
    ∃ asgn, assign_roles player_ids fixed_roles rng = Except.ok asgn
      ∧ asgn.map Prod.fst = player_ids
      ∧ (asgn.map Prod.snd : Multiset String) = (build_remaining d : Multiset String)
      ∧ ∀ pr ∈ fixed_roles, pr ∈ asgn := by
  obtain ⟨hdlen, hdnd⟩ := ROLE_DISTRIBUTION_spec player_ids.length d hdist
  have hms := subtract_fixed_multiset fixed_roles d d' hdnd hok
  have hpool : ((shuffle (build_remaining d') rng).1).length = (build_remaining d').length :=
    (shuffle_perm (build_remaining d') rng).length_eq
  have hfixlen :
      (player_ids.filter (fun pid => (fixed_lookup fixed_roles pid).isSome)).length
        = fixed_roles.length := by
    have hperm := filter_isSome_perm_keys player_ids fixed_roles hnodup hkeys hsub
    rw [hperm.length_eq, List.length_map]
  have hcard := congrArg Multiset.card hms
  simp only [Multiset.coe_card, Multiset.card_add, List.length_map] at hcard
  have hsplit := filter_none_some_length fixed_roles player_ids
  have hlen :
      (player_ids.filter (fun pid => (fixed_lookup fixed_roles pid).isNone)).length
        = ((shuffle (build_remaining d') rng).1).length := by
    rw [hpool]
    omega
  obtain ⟨out, hout, hfst, hsnd, hfix⟩ :=
    assign_loop_spec fixed_roles player_ids ((shuffle (build_remaining d') rng).1) hlen
  refine ⟨out, ?_, hfst, ?_, ?_⟩
  · simp only [assign_roles, hdist, hok]
    exact hout
  · rw [hsnd, hms]
    have hfm : (player_ids.filterMap (fixed_lookup fixed_roles) : Multiset String)
        = ((fixed_roles.map Prod.snd : List String) : Multiset String) := by
      rw [filterMap_eq_map_filter]
      apply Multiset.coe_eq_coe.mpr
      have hp :=
        (filter_isSome_perm_keys player_ids fixed_roles hnodup hkeys hsub).map
          (fixed_value fixed_roles)
      rw [map_fixed_value_keys fixed_roles hkeys] at hp
      exact hp
    rw [hfm]
    congr 1
    exact Multiset.coe_eq_coe.mpr (shuffle_perm _ rng)
  · intro pr hpr
    have hl := fixed_lookup_of_mem fixed_roles hkeys pr.1 pr.2 (by
      rw [Prod.mk.eta]
      exact hpr)
    have := hfix pr.1 (hsub pr hpr) pr.2 hl
    rw [Prod.mk.eta] at this
    exact this

end Mafia

namespace Mafia

/-- Witness for C6: five players with one fixed doctor; the assigned
multiset is exactly {mafia, doctor, deputy, townsperson, townsperson}
and p1 is the doctor. -/
theorem assign_roles_distribution_witness :
    ∃ asgn,
      assign_roles ["p1", "p2", "p3", "p4", "p5"] [("p1", "doctor")] [] = Except.ok asgn
      ∧ asgn.map Prod.fst = ["p1", "p2", "p3", "p4", "p5"]
      ∧ (asgn.map Prod.snd : Multiset String) =
          (build_remaining [("mafia", 1), ("doctor", 1), ("deputy", 1), ("townsperson", 2)] :
            Multiset String)
      ∧ ∀ pr ∈ [("p1", "doctor")], pr ∈ asgn :=
  assign_roles_distribution ["p1", "p2", "p3", "p4", "p5"] [("p1", "doctor")] []
    [("mafia", 1), ("doctor", 1), ("deputy", 1), ("townsperson", 2)]
    [("mafia", 1), ("doctor", 0), ("deputy", 1), ("townsperson", 2)]
    (by decide) (by decide) (by decide) rfl rfl

/-- C7: assign_roles fails for every unsupported player count, and for
every fixed-role map requesting more instances of some role than that
role's table quota; in the embedding an error result carries no
assignment at all, matching the code, which raises before opening the
database session that would create GamePlayerState rows. -/
theorem assign_roles_error_spec :
    (∀ (player_ids : List String) (fixed_roles : List (String × String)) (rng : List Nat),
        player_ids.length ≠ 5 → player_ids.length ≠ 6 → player_ids.length ≠ 7 →
        ∃ e, assign_roles player_ids fixed_roles rng = Except.error e)
    ∧ (∀ (player_ids : List String) (fixed_roles : List (String × String)) (rng : List Nat)
        (d : List (String × Nat)),
        ROLE_DISTRIBUTION player_ids.length = some d →
        (∃ role, dist_get d role < (fixed_roles.map Prod.snd).count role) →
        ∃ e, assign_roles player_ids fixed_roles rng = Except.error e) := by
  constructor
  · intro ps fixed rng h5 h6 h7
    have hd : ROLE_DISTRIBUTION ps.length = none := by
      unfold ROLE_DISTRIBUTION
      rw [if_neg h5, if_neg h6, if_neg h7]
    exact ⟨"Unsupported player count", by simp only [assign_roles, hd]⟩
  · intro ps fixed rng d hd hex
    obtain ⟨role, hlt⟩ := hex
    rcases hsf : subtract_fixed d fixed with e | d'
    · exact ⟨e, by simp only [assign_roles, hd, hsf]⟩
    · exfalso
      have := subtract_fixed_ok_count fixed d d' hsf role
      omega

/-- Witness for C7: four players are rejected, and two fixed mafia over
a one-mafia table are rejected. -/
theorem assign_roles_error_spec_witness :
    (∃ e, assign_roles ["p1", "p2", "p3", "p4"] [] [] = Except.error e)
    ∧ (∃ e,
        assign_roles ["p1", "p2", "p3", "p4", "p5"] [("p1", "mafia"), ("p2", "mafia")] []
          = Except.error e) := by
  constructor
  · exact assign_roles_error_spec.1 ["p1", "p2", "p3", "p4"] [] []
      (by decide) (by decide) (by decide)
  · exact assign_roles_error_spec.2 ["p1", "p2", "p3", "p4", "p5"]
      [("p1", "mafia"), ("p2", "mafia")] []
      [("mafia", 1), ("doctor", 1), ("deputy", 1), ("townsperson", 2)] rfl
      ⟨"mafia", by decide⟩

/-- The assignment described by the spec's words for C9 — zip the
shuffled non-fixed-player list with the shuffled role list (non-fixed
players only, as no fixed roles appear in the comparison).  Written
solely to be compared against assign_roles; the code does NOT implement
this pairing. -/
def assign_roles_spec_zip (player_ids : List String)
    (fixed_roles : List (String × String)) (rng : List Nat) :
    Except String (List (String × String)) :=
  match ROLE_DISTRIBUTION player_ids.length with
  | none => Except.error "Unsupported player count"
  | some distribution =>
    match subtract_fixed distribution fixed_roles with
    | Except.error e => Except.error e
    | Except.ok remaining_dist =>
      let shuffled := shuffle (build_remaining remaining_dist) rng
      let players_needing_roles :=
        player_ids.filter (fun pid => (fixed_lookup fixed_roles pid).isNone)
      let shuffled_players := shuffle players_needing_roles shuffled.2
      Except.ok (shuffled_players.1.zip shuffled.1)

/-- Counterexample to C9 as stated: with five players, no fixed roles
and a draw stream that makes both Fisher-Yates passes the identity
permutation, the code assigns p1 the LAST shuffled role (townsperson,
via list.pop), not the first (mafia) that zipping the two shuffled
lists would give; the code's pairing is not the zip of the two
shuffles. -/
theorem assign_roles_not_zip_counterexample :
    assign_roles ["p1", "p2", "p3", "p4", "p5"] [] [4, 3, 2, 1, 4, 3, 2, 1]
      = Except.ok [("p1", "townsperson"), ("p2", "townsperson"), ("p3", "deputy"),
          ("p4", "doctor"), ("p5", "mafia")]
    ∧ assign_roles_spec_zip ["p1", "p2", "p3", "p4", "p5"] [] [4, 3, 2, 1, 4, 3, 2, 1]
      = Except.ok [("p1", "mafia"), ("p2", "doctor"), ("p3", "deputy"),
          ("p4", "townsperson"), ("p5", "townsperson")]
    ∧ assign_roles ["p1", "p2", "p3", "p4", "p5"] [] [4, 3, 2, 1, 4, 3, 2, 1]
      ≠ assign_roles_spec_zip ["p1", "p2", "p3", "p4", "p5"] [] [4, 3, 2, 1, 4, 3, 2, 1] := by
  refine ⟨rfl, rfl, ?_⟩
  intro h
  exact absurd (Except.ok.inj h) (by decide)

/-- C9 amended: the remaining-role multiset is shuffled with the seeded
generator and the non-fixed players are shuffled with the same
generator, but the player shuffle is never read: the assignment pairs
the players in their original input order with the shuffled roles
popped from the end, so it is determined by the role shuffle alone —
any two draw streams yielding the same shuffled role list yield the
identical assignment (and the embedding is a pure function of the
stream, so an equal seed trivially reproduces the assignment). -/
theorem assign_roles_ignores_player_shuffle (player_ids : List String)
    (fixed_roles : List (String × String)) (rngA rngB : List Nat)
    (d d' : List (String × Nat))
    (hd : ROLE_DISTRIBUTION player_ids.length = some d)
    (hok : subtract_fixed d fixed_roles = Except.ok d')
    (hsh : (shuffle (build_remaining d') rngA).1 = (shuffle (build_remaining d') rngB).1) :
    assign_roles player_ids fixed_roles rngA = assign_roles player_ids fixed_roles rngB := by
  simp only [assign_roles, hd, hok, hsh]

/-- Witness for the amended C9: two streams that agree on the role
shuffle but shuffle the players differently produce the same
assignment. -/
theorem assign_roles_ignores_player_shuffle_witness :
    assign_roles ["p1", "p2", "p3", "p4", "p5"] [] [4, 3, 2, 1, 4, 3, 2, 1]
      = assign_roles ["p1", "p2", "p3", "p4", "p5"] [] [4, 3, 2, 1, 0, 0, 0, 0] :=
  assign_roles_ignores_player_shuffle ["p1", "p2", "p3", "p4", "p5"] []
    [4, 3, 2, 1, 4, 3, 2, 1] [4, 3, 2, 1, 0, 0, 0, 0]
    [("mafia", 1), ("doctor", 1), ("deputy", 1), ("townsperson", 2)]
    [("mafia", 1), ("doctor", 1), ("deputy", 1), ("townsperson", 2)]
    rfl rfl (by decide)

end Mafia
